import Mathlib

/-!
Shallow embedding of the `simple-vm` register-machine interpreter
(`src/vm.rs` and `src/vm/parser.rs`) together with theorems checking the
specification's claims against it.

Machine integers: the Rust code stores `i32` values (`Constant(i32)`); we
model them as `Int` with explicit wrap-around at `2^32` where the source
uses `wrapping_add`.  The program counter is a Rust `usize`; we model it
as `Nat`, with `checked_sub` / bound checks made explicit exactly where
the source performs them.
-/

namespace SimpleVm

/-- Rust's `i32::MAX`. -/
def i32max : Int := 2147483647

/-- Models `i32::wrapping_add`: two's-complement addition wrapping at `2^32`. -/
def wrapping_add (a b : Int) : Int :=
  (a + b + 2147483648) % 4294967296 - 2147483648

/-- `Register(String)` from `parser.rs`. -/
structure Register where
  name : String
deriving DecidableEq, Repr

/-- Models Rust `char::is_alphabetic` (restricted to the ASCII letters that
occur in this code base's programs; the parser only ever distinguishes
alphabetic from non-alphabetic). -/
def isAlphabetic (c : Char) : Bool := c.isAlpha

/-- `Register::from_str`: succeeds iff every character of the token is
alphabetic (`s.chars().all(|c| c.is_alphabetic())`). -/
def register_from_str (s : String) : Option Register :=
  if s.toList.all isAlphabetic then some { name := s } else none

/-- Digit run folded to a number, as Rust's integer parsing does. -/
def digitsToNat (cs : List Char) : Nat :=
  cs.foldl (fun n c => n * 10 + (c.toNat - 48)) 0

/-- A nonempty all-digit run, or failure. -/
def parseDigits (cs : List Char) : Option Nat :=
  if cs = [] then none
  else if cs.all Char.isDigit then some (digitsToNat cs) else none

/-- Models Rust `str::parse::<i32>` (`Constant::from_str`): optional `+`/`-`
sign, one or more ASCII digits, value within the signed 32-bit range. -/
def parseI32 (s : String) : Option Int :=
  match s.toList with
  | '+' :: rest =>
      (parseDigits rest).bind fun n =>
        if (n : Int) ≤ i32max then some (n : Int) else none
  | '-' :: rest =>
      (parseDigits rest).bind fun n =>
        if (n : Int) ≤ 2147483648 then some (-(n : Int)) else none
  | cs =>
      (parseDigits cs).bind fun n =>
        if (n : Int) ≤ i32max then some (n : Int) else none

/-- `ConstOrReg` from `parser.rs`. -/
inductive ConstOrReg where
  | const : Int → ConstOrReg
  | reg : Register → ConstOrReg
deriving DecidableEq, Repr

/-- `Instruction` from `parser.rs`. -/
inductive Instruction where
  | mov : Register → ConstOrReg → Instruction
  | add : Register → Register → Instruction
  | jnz : ConstOrReg → ConstOrReg → Instruction
  | print : Register → Instruction
deriving DecidableEq, Repr

instance : Inhabited Instruction := ⟨.print { name := "" }⟩

/-- `ParseError` from `parser.rs`.  `emptyInput` and `emptyLine` are nullary
in the source; the other two carry the formatted message string. -/
inductive ParseError where
  | emptyInput
  | emptyLine
  | incorrectArgument : String → ParseError
  | instructionNotFoundOrWrongArgs : String → ParseError
deriving DecidableEq, Repr

/-- The `Display` text of `RegisterParseError`. -/
def register_parse_error_msg : String :=
  "Parsing failure, register value should be alphabetic"

/-- The message built by `parse_token` around an operand failure. -/
def incorrect_arg_msg (tok errMsg : String) : String :=
  "Failed to parse " ++ tok ++ ", with error: " ++ errMsg

/-- `ConstOrReg::from_str`: tries the constant parse first and only on its
failure falls back to the register parse (`map_or` in the source). -/
def const_or_reg_from_str (s : String) : Except String ConstOrReg :=
  match parseI32 s with
  | some cn => .ok (.const cn)
  | none =>
      match register_from_str s with
      | some r => .ok (.reg r)
      | none => .error register_parse_error_msg

/-- `parse_token::<Register>`. -/
def parse_token_reg (s : String) : Except ParseError Register :=
  match register_from_str s with
  | some r => .ok r
  | none => .error (.incorrectArgument (incorrect_arg_msg s register_parse_error_msg))

/-- `parse_token::<ConstOrReg>`. -/
def parse_token_const_or_reg (s : String) : Except ParseError ConstOrReg :=
  match const_or_reg_from_str s with
  | .ok v => .ok v
  | .error e => .error (.incorrectArgument (incorrect_arg_msg s e))

/-- Rust `u8::is_ascii_whitespace` (space, tab, newline, form feed, carriage
return). -/
def isAsciiWhitespace (c : Char) : Bool :=
  c = ' ' || c = '\t' || c = '\n' || c = '\x0c' || c = '\r'

/-- Accumulating splitter behind `tokenize`: `acc` holds the current token's
characters in reverse. -/
def tokenizeAux : List Char → List Char → List String
  | [], acc => if acc.isEmpty then [] else [⟨acc.reverse⟩]
  | c :: cs, acc =>
      if isAsciiWhitespace c then
        if acc.isEmpty then tokenizeAux cs []
        else ⟨acc.reverse⟩ :: tokenizeAux cs []
      else tokenizeAux cs (c :: acc)

/-- Rust `split_ascii_whitespace`: split on ASCII whitespace, never yielding
empty tokens. -/
def tokenize (s : String) : List String :=
  tokenizeAux s.toList []

/-- One iteration of the `parse_instructions` loop body: dispatch on the
whitespace-split token list of line `i`. -/
def parseLine (i : Nat) (line : String) : Except ParseError Instruction :=
  match tokenize line with
  | ["mov", x, y] => do
      let xr ← parse_token_reg x
      let yr ← parse_token_const_or_reg y
      .ok (.mov xr yr)
  | ["add", x, y] => do
      let xr ← parse_token_reg x
      let yr ← parse_token_reg y
      .ok (.add xr yr)
  | ["print", x] => do
      let xr ← parse_token_reg x
      .ok (.print xr)
  | ["jnz", x, y] => do
      let xr ← parse_token_const_or_reg x
      let yr ← parse_token_const_or_reg y
      .ok (.jnz xr yr)
  | _ :: _ =>
      .error (.instructionNotFoundOrWrongArgs
        ("Not found instruction or wrong args on line " ++ toString i ++ ", error: " ++ line))
  | [] => .error .emptyLine

/-- The `for (i, line)` loop of `parse_instructions`: the `?` on the first
failing line aborts the whole call. -/
def parseLines (i : Nat) : List String → Except ParseError (List Instruction)
  | [] => .ok []
  | line :: rest =>
      match parseLine i line with
      | .error e => .error e
      | .ok ins =>
          match parseLines (i + 1) rest with
          | .error e => .error e
          | .ok restIns => .ok (ins :: restIns)

/-- `parse_instructions` from `parser.rs`. -/
def parse_instructions (input : List String) : Except ParseError (List Instruction) :=
  if input = [] then .error .emptyInput
  else parseLines 0 input

/-! ## Interpreter (`vm.rs`) -/

/-- The `HashMap<Register, Constant>` register file. -/
def RegFile := Register → Option Int

/-- `HashMap::insert`. -/
def setReg (f : RegFile) (r : Register) (v : Int) : RegFile :=
  fun q => if q = r then some v else f q

/-- The mutable state of `Vm`, plus the character stream `print!` writes to
(recorded as the emitted code points, in order). -/
structure VmState where
  registers : RegFile
  pc : Nat
  maxLen : Nat
  output : List Int

/-- `Vm::mov_const`. -/
def mov_const (s : VmState) (x : Register) (y : Int) : VmState :=
  { s with registers := setReg s.registers x y, pc := s.pc + 1 }

/-- `Vm::mov`; `none` models the panic on an unbound source register. -/
def mov (s : VmState) (x y : Register) : Option VmState :=
  match s.registers y with
  | some vy => some { s with registers := setReg s.registers x vy, pc := s.pc + 1 }
  | none => none

/-- `Vm::add`; `none` models the panics on unbound operands. -/
def vmAdd (s : VmState) (x y : Register) : Option VmState :=
  match s.registers x, s.registers y with
  | some vx, some vy =>
      some { s with registers := setReg s.registers x (wrapping_add vx vy), pc := s.pc + 1 }
  | _, _ => none

/-- Valid argument to Rust `char::from_u32`: a Unicode scalar value. -/
def validChar (v : Int) : Bool :=
  decide (v < 55296 ∨ (57344 ≤ v ∧ v < 1114112))

/-- `Vm::print`.  Bound register: panics (`none`) on a negative value or an
invalid code point, otherwise emits and advances `pc`.  Unbound register:
the source's `None => ()` arm — it returns with the state unchanged (in
particular `pc` is NOT advanced). -/
def vmPrint (s : VmState) (x : Register) : Option VmState :=
  match s.registers x with
  | some v =>
      if v < 0 then none
      else if validChar v then
        some { s with output := s.output ++ [v], pc := s.pc + 1 }
      else none
  | none => some s

/-- `Vm::get_const_or_load`; `none` models the `expect` panic on an unbound
register. -/
def get_const_or_load (s : VmState) (x : ConstOrReg) : Option Int :=
  match x with
  | .const c => some c
  | .reg r => s.registers r

/-- `usize::checked_sub`. -/
def checked_sub (a b : Nat) : Option Nat :=
  if b ≤ a then some (a - b) else none

/-- `Vm::jumpz`; `none` models the three panics (unbound register, failed
`checked_sub`, target beyond `max_len`). -/
def jumpz (s : VmState) (x y : ConstOrReg) : Option VmState :=
  match get_const_or_load s x with
  | none => none
  | some value =>
      if value = 0 then some { s with pc := s.pc + 1 }
      else
        match get_const_or_load s y with
        | none => none
        | some jump =>
            match (if jump < 0 then checked_sub s.pc jump.natAbs
                   else some (s.pc + jump.natAbs)) with
            | none => none
            | some newPc =>
                if s.maxLen < newPc then none else some { s with pc := newPc }

/-- The specification's jump-target formula: `pc - |offset|` for a negative
resolved offset, `pc + |offset|` otherwise, computed in `Int` so that an
underflow is visible as a negative target. -/
def jumpTarget (pc : Nat) (j : Int) : Int :=
  if j < 0 then (pc : Int) - (j.natAbs : Int) else (pc : Int) + (j.natAbs : Int)

/-- The dispatch `match instruction` inside `Vm::interpret`'s loop. -/
def execInstr (s : VmState) (i : Instruction) : Option VmState :=
  match i with
  | .add x y => vmAdd s x y
  | .mov x y =>
      match y with
      | .const c => some (mov_const s x c)
      | .reg r => mov s x r
  | .print x => vmPrint s x
  | .jnz x y => jumpz s x y

/-- Result of running the interpreter loop with bounded fuel. -/
inductive RunResult where
  | halted : VmState → RunResult
  | fatal : RunResult
  | outOfFuel : VmState → RunResult

/-- The `loop` of `Vm::interpret`, with fuel to keep it total: fetch the
instruction at `pc`; if none, halt; otherwise dispatch and repeat. -/
def run (insts : List Instruction) : Nat → VmState → RunResult
  | 0, s => .outOfFuel s
  | fuel + 1, s =>
      match insts[s.pc]? with
      | none => .halted s
      | some i =>
          match execInstr s i with
          | none => .fatal
          | some t => run insts fuel t

/-- The state `Vm::new` + the two assignments at the top of `interpret`
produce: empty register file, `pc = start_pc`, `max_len = instructions.len()`. -/
def initState (insts : List Instruction) (startPc : Nat) : VmState :=
  { registers := fun _ => none, pc := startPc, maxLen := insts.length, output := [] }

/-- `Vm::new()` followed by `vm.interpret(instructions, start_pc)`. -/
def interpret (insts : List Instruction) (startPc fuel : Nat) : RunResult :=
  run insts fuel (initState insts startPc)

/-- One fetch-dispatch step (halt and fatal both yield `none`). -/
def stepVm (insts : List Instruction) (s : VmState) : Option VmState :=
  match insts[s.pc]? with
  | none => none
  | some i => execInstr s i

/-- `n` fetch-dispatch steps; `some s'` means `s'` is reachable from `s`. -/
def iterateStep (insts : List Instruction) : Nat → VmState → Option VmState
  | 0, s => some s
  | n + 1, s =>
      match stepVm insts s with
      | some t => iterateStep insts n t
      | none => none

/-- Program counter of a halted run, if it halted. -/
def finalPc : RunResult → Option Nat
  | .halted s => some s.pc
  | _ => none

/-- Value of register `r` in a halted run, if it halted. -/
def finalReg (r : Register) : RunResult → Option (Option Int)
  | .halted s => some (s.registers r)
  | _ => none

/-! ## Theorems about the claims -/

/-- Claim C1, code behavior at the failing input: executing `Print a` with
register `a` unbound leaves the whole state unchanged — nothing is emitted and
`pc` is NOT advanced (the source's `None => ()` arm skips the `self.pc += 1`
that every other non-fatal path performs) — so the interpreter re-fetches the
same `Print` forever and the run never halts. -/
theorem print_unbound_does_not_advance_pc :
    vmPrint (initState [.print { name := "a" }] 0) { name := "a" }
      = some (initState [.print { name := "a" }] 0) ∧
    interpret [.print { name := "a" }] 0 50
      = .outOfFuel (initState [.print { name := "a" }] 0) :=
  ⟨rfl, rfl⟩

/-- Claim C4: `add` wraps around; running the parsed program
`["mov a 2147483647", "mov b 1", "add a b"]` from `pc = 0` halts with
`pc = 3` and register `a` bound to `-2147483648`. -/
theorem add_wraparound_program :
    ∃ insts,
      parse_instructions ["mov a 2147483647", "mov b 1", "add a b"] = .ok insts ∧
      finalPc (interpret insts 0 10) = some 3 ∧
      finalReg { name := "a" } (interpret insts 0 10) = some (some (-2147483648)) := by
  refine ⟨[.mov { name := "a" } (.const 2147483647), .mov { name := "b" } (.const 1),
    .add { name := "a" } { name := "b" }], ?_, ?_, ?_⟩
  · rfl
  · decide
  · decide

/-- Claim C8: the backward-jump loop `["mov a 2", "mov b -1", "add a b",
"jnz a -1"]` started at `pc = 0` terminates with `pc = 4`, `a = 0`,
`b = -1`. -/
theorem backward_jump_loop_program :
    ∃ insts,
      parse_instructions ["mov a 2", "mov b -1", "add a b", "jnz a -1"] = .ok insts ∧
      finalPc (interpret insts 0 20) = some 4 ∧
      finalReg { name := "a" } (interpret insts 0 20) = some (some 0) ∧
      finalReg { name := "b" } (interpret insts 0 20) = some (some (-1)) := by
  refine ⟨[.mov { name := "a" } (.const 2), .mov { name := "b" } (.const (-1)),
    .add { name := "a" } { name := "b" },
    .jnz (.reg { name := "a" }) (.const (-1))], ?_, ?_, ?_, ?_⟩
  · rfl
  · decide
  · decide
  · decide

/-- Claim C3, counterexample: `EmptyLine` is a nullary variant — two inputs
whose blank line sits at different indices (0 versus 1) produce literally the
same error value, so the error cannot carry the offending line's index or
text. -/
theorem emptyline_error_carries_no_context :
    parse_instructions ["", "mov a b"] = .error .emptyLine ∧
    parse_instructions ["mov a b", ""] = .error .emptyLine ∧
    parse_instructions ["", "mov a b"] = parse_instructions ["mov a b", ""] :=
  ⟨rfl, rfl, rfl⟩

/-- Claim C5: a `ConstOrReg` operand token is parsed as a signed-32-bit
constant first; whenever the constant parse succeeds the result is that
`Constant` and never a `Register`. -/
theorem const_or_reg_constant_first (s : String) (c : Int)
    (h : parseI32 s = some c) :
    const_or_reg_from_str s = .ok (.const c) ∧
    ∀ r, const_or_reg_from_str s ≠ .ok (.reg r) := by
  refine ⟨by simp [const_or_reg_from_str, h], fun r hr => ?_⟩
  rw [const_or_reg_from_str, h] at hr
  cases hr

/-- Claim C5, witness: `"5"` parses to the constant `5`, not a register. -/
theorem const_or_reg_constant_first_witness :
    const_or_reg_from_str "5" = .ok (.const 5) :=
  (const_or_reg_constant_first "5" 5 (by decide)).1

/-- Claim C6, counterexample: the empty token consists of zero characters,
yet `Register::from_str` accepts it (`chars().all(..)` is vacuously true), so
"one or more alphabetic characters" is not the accepted grammar. -/
theorem register_grammar_empty_token_cex :
    register_from_str "" = some { name := "" } ∧ "".toList = [] :=
  ⟨rfl, rfl⟩

/-- Claim C6 as amended: a token parses as a Register iff ALL of its
characters are alphabetic (zero or more — the empty token is accepted,
though whitespace tokenization never produces one); a failing
register-position operand yields `IncorrectArgument` carrying the offending
token and the underlying failure text, and it fails the whole parse (shown on
the source's own test input `"mov 1 1"`). -/
theorem register_grammar (s : String) :
    (register_from_str s = some { name := s } ↔ s.toList.all isAlphabetic = true) ∧
    (s.toList.all isAlphabetic = false →
      parse_token_reg s =
        .error (.incorrectArgument (incorrect_arg_msg s register_parse_error_msg))) ∧
    parse_instructions ["mov 1 1"] =
      .error (.incorrectArgument
        "Failed to parse 1, with error: Parsing failure, register value should be alphabetic") := by
  refine ⟨?_, fun hbad => ?_, rfl⟩
  · cases hall : s.toList.all isAlphabetic <;> rw [register_from_str, hall] <;> simp
  · rw [parse_token_reg, register_from_str, hbad]
    simp

/-- Claim C6, witness: instantiation at the non-alphabetic token `"1"`. -/
theorem register_grammar_witness :
    parse_token_reg "1" =
      .error (.incorrectArgument (incorrect_arg_msg "1" register_parse_error_msg)) :=
  (register_grammar "1").2.1 (by decide)

/-- Claim C2: for a `jnz` whose test resolves to a nonzero value and whose
offset resolves to `j`, the taken jump sets `pc` to `pc - |j|` when `j` is
negative and to `pc + |j|` otherwise (`j = 0` self-loops); the step is fatal
exactly when that target would go below zero or strictly exceed `max_len`
(the instruction count), landing exactly at `max_len` being permitted. -/
theorem jnz_nonzero_jump_semantics (s : VmState) (x y : ConstOrReg) (v j : Int)
    (hx : get_const_or_load s x = some v) (hv : v ≠ 0)
    (hy : get_const_or_load s y = some j) :
    jumpz s x y =
      if 0 ≤ jumpTarget s.pc j ∧ jumpTarget s.pc j ≤ (s.maxLen : Int)
      then some { s with pc := (jumpTarget s.pc j).toNat } else none := by
  rw [jumpz, hx]
  dsimp only
  rw [if_neg hv, hy]
  dsimp only
  rcases lt_or_le j 0 with hj | hj
  · rw [if_pos hj, checked_sub]
    by_cases hle : j.natAbs ≤ s.pc
    · rw [if_pos hle]
      dsimp only
      by_cases hm : s.maxLen < s.pc - j.natAbs
      · rw [if_pos hm, if_neg (show ¬(0 ≤ jumpTarget s.pc j ∧
          jumpTarget s.pc j ≤ (s.maxLen : Int)) from by rw [jumpTarget, if_pos hj]; omega)]
      · rw [if_neg hm, if_pos (show (0 ≤ jumpTarget s.pc j ∧
          jumpTarget s.pc j ≤ (s.maxLen : Int)) from by
            rw [jumpTarget, if_pos hj]; constructor <;> omega)]
        have htn : (jumpTarget s.pc j).toNat = s.pc - j.natAbs := by
          rw [jumpTarget, if_pos hj]; omega
        rw [htn]
    · rw [if_neg hle]
      dsimp only
      rw [if_neg (show ¬(0 ≤ jumpTarget s.pc j ∧
        jumpTarget s.pc j ≤ (s.maxLen : Int)) from by rw [jumpTarget, if_pos hj]; omega)]
  · rw [if_neg (not_lt.mpr hj)]
    dsimp only
    by_cases hm : s.maxLen < s.pc + j.natAbs
    · rw [if_pos hm, if_neg (show ¬(0 ≤ jumpTarget s.pc j ∧
        jumpTarget s.pc j ≤ (s.maxLen : Int)) from by
          rw [jumpTarget, if_neg (not_lt.mpr hj)]; omega)]
    · rw [if_neg hm, if_pos (show (0 ≤ jumpTarget s.pc j ∧
        jumpTarget s.pc j ≤ (s.maxLen : Int)) from by
          rw [jumpTarget, if_neg (not_lt.mpr hj)]; constructor <;> omega)]
      have htn : (jumpTarget s.pc j).toNat = s.pc + j.natAbs := by
        rw [jumpTarget, if_neg (not_lt.mpr hj)]; omega
      rw [htn]

/-- Claim C2, witness: from `pc = 1` with `max_len = 2`, test `1` and offset
`-1` jump back to `pc = 0`. -/
theorem jnz_nonzero_jump_semantics_witness :
    jumpz { registers := fun _ => none, pc := 1, maxLen := 2, output := [] }
        (.const 1) (.const (-1)) =
      if 0 ≤ jumpTarget 1 (-1) ∧ jumpTarget 1 (-1) ≤ ((2 : Nat) : Int)
      then some { registers := fun _ => none, pc := (jumpTarget 1 (-1)).toNat,
                  maxLen := 2, output := [] }
      else none :=
  jnz_nonzero_jump_semantics
    { registers := fun _ => none, pc := 1, maxLen := 2, output := [] }
    (.const 1) (.const (-1)) 1 (-1) rfl (by decide) rfl

/-- Claim C9: when the `jnz` test resolves to zero the offset operand is
never resolved — `pc` advances by 1 for ANY offset operand, in particular an
unbound register one — even though resolving an unbound register operand
(`get_const_or_load`) is fatal wherever it actually happens. -/
theorem jnz_zero_skips_offset (s : VmState) (x y : ConstOrReg)
    (hx : get_const_or_load s x = some 0) :
    jumpz s x y = some { s with pc := s.pc + 1 } ∧
    (∀ r, s.registers r = none → get_const_or_load s (.reg r) = none) := by
  refine ⟨?_, fun r hr => hr⟩
  simp [jumpz, hx]

/-- Claim C9, witness: constant test `0` with an unbound-register offset
still just advances `pc`. -/
theorem jnz_zero_skips_offset_witness :
    jumpz (initState [] 0) (.const 0) (.reg { name := "z" }) =
      some { initState [] 0 with pc := 0 + 1 } ∧
    (initState [] 0).registers { name := "z" } = none :=
  ⟨(jnz_zero_skips_offset (initState [] 0) (.const 0) (.reg { name := "z" }) rfl).1, rfl⟩

/-- Helper: a successful `parseLines` run parses every line, in order. -/
theorem parseLines_ok_spec (lines : List String) :
    ∀ (i : Nat) (insts : List Instruction), parseLines i lines = .ok insts →
      insts.length = lines.length ∧
      ∀ j, j < lines.length →
        parseLine (i + j) (lines.getD j "") = .ok (insts.getD j default) := by
  induction lines with
  | nil =>
      intro i insts h
      rw [parseLines] at h
      cases h
      exact ⟨rfl, fun j hj => absurd hj (by simp)⟩
  | cons l rest ih =>
      intro i insts h
      rw [parseLines] at h
      cases hl : parseLine i l with
      | error e0 =>
          simp only [hl] at h
          exact Except.noConfusion h
      | ok ins0 =>
          simp only [hl] at h
          cases hr : parseLines (i + 1) rest with
          | error e1 =>
              simp only [hr] at h
              exact Except.noConfusion h
          | ok restIns =>
              simp only [hr, Except.ok.injEq] at h
              subst h
              obtain ⟨hlen, hall⟩ := ih (i + 1) restIns hr
              refine ⟨by simp [hlen], fun j hj => ?_⟩
              cases j with
              | zero => simpa using hl
              | succ j' =>
                  have hj' : j' < rest.length := by simpa using hj
                  have h2 := hall j' hj'
                  have harith : (i + 1) + j' = i + (j' + 1) := by omega
                  rw [harith] at h2
                  simpa using h2

/-- Helper: a failed `parseLines` run fails with the error of the first
offending line, every earlier line parsing successfully. -/
theorem parseLines_error_spec (lines : List String) :
    ∀ (i : Nat) (e : ParseError), parseLines i lines = .error e →
      ∃ k, k < lines.length ∧ parseLine (i + k) (lines.getD k "") = .error e ∧
        ∀ j, j < k → ∃ ins, parseLine (i + j) (lines.getD j "") = .ok ins := by
  induction lines with
  | nil => intro i e h; rw [parseLines] at h; cases h
  | cons l rest ih =>
      intro i e h
      rw [parseLines] at h
      cases hl : parseLine i l with
      | error e0 =>
          simp only [hl, Except.error.injEq] at h
          subst h
          exact ⟨0, by simp, by simpa using hl, fun j hj => absurd hj (Nat.not_lt_zero j)⟩
      | ok ins0 =>
          simp only [hl] at h
          cases hr : parseLines (i + 1) rest with
          | ok restIns =>
              simp only [hr] at h
              exact Except.noConfusion h
          | error e1 =>
              simp only [hr, Except.error.injEq] at h
              subst h
              obtain ⟨k, hk, hke, hprev⟩ := ih (i + 1) e1 hr
              have harithk : (i + 1) + k = i + (k + 1) := by omega
              rw [harithk] at hke
              refine ⟨k + 1, by simpa using Nat.succ_lt_succ hk,
                by simpa using hke, fun j hj => ?_⟩
              cases j with
              | zero => exact ⟨ins0, by simpa using hl⟩
              | succ j' =>
                  obtain ⟨ins, hins⟩ := hprev j' (by omega)
                  have harith : (i + 1) + j' = i + (j' + 1) := by omega
                  rw [harith] at hins
                  exact ⟨ins, by simpa using hins⟩

/-- Helper: conversely, if line `k` fails and every line before it parses,
`parseLines` returns exactly line `k`'s error. -/
theorem parseLines_first_error (lines : List String) :
    ∀ (i k : Nat) (e : ParseError), k < lines.length →
      parseLine (i + k) (lines.getD k "") = .error e →
      (∀ j, j < k → ∃ ins, parseLine (i + j) (lines.getD j "") = .ok ins) →
      parseLines i lines = .error e := by
  induction lines with
  | nil => intro i k e hk _ _; exact absurd hk (by simp)
  | cons l rest ih =>
      intro i k e hk hke hprev
      rw [parseLines]
      cases k with
      | zero =>
          have h0 : parseLine i l = .error e := by simpa using hke
          rw [h0]
      | succ k' =>
          obtain ⟨ins0, h0⟩ := hprev 0 (Nat.succ_pos k')
          have h0' : parseLine i l = .ok ins0 := by simpa using h0
          rw [h0']
          have hrec : parseLines (i + 1) rest = .error e := by
            apply ih (i + 1) k' e (by simpa using hk)
            · have harith : (i + 1) + k' = i + (k' + 1) := by omega
              rw [harith]
              simpa using hke
            · intro j hj
              obtain ⟨ins, hins⟩ := hprev (j + 1) (Nat.succ_lt_succ hj)
              have harith : (i + 1) + j = i + (j + 1) := by omega
              rw [harith]
              exact ⟨ins, by simpa using hins⟩
          rw [hrec]

/-- Claim C7: parsing is atomic — it either returns one instruction per input
line (all lines parsed, in order), or fails with the error of the first
offending line, all earlier lines having parsed successfully; a partial
instruction list is never returned.  (The empty input sequence, which has no
offending line, fails with `EmptyInput`.) -/
theorem parse_first_error_atomic (input : List String) :
    (input = [] ∧ parse_instructions input = .error .emptyInput) ∨
    (∃ insts, parse_instructions input = .ok insts ∧ insts.length = input.length ∧
      ∀ j, j < input.length → parseLine j (input.getD j "") = .ok (insts.getD j default)) ∨
    (∃ e k, parse_instructions input = .error e ∧ k < input.length ∧
      parseLine k (input.getD k "") = .error e ∧
      ∀ j, j < k → ∃ ins, parseLine j (input.getD j "") = .ok ins) := by
  by_cases hemp : input = []
  · exact Or.inl ⟨hemp, by rw [parse_instructions, if_pos hemp]⟩
  · have hp : parse_instructions input = parseLines 0 input := by
      rw [parse_instructions, if_neg hemp]
    right
    cases hres : parseLines 0 input with
    | ok insts =>
        left
        obtain ⟨hlen, hall⟩ := parseLines_ok_spec input 0 insts hres
        refine ⟨insts, hp.trans hres, hlen, fun j hj => ?_⟩
        simpa using hall j hj
    | error e =>
        right
        obtain ⟨k, hk, hke, hprev⟩ := parseLines_error_spec input 0 e hres
        refine ⟨e, k, hp.trans hres, hk, by simpa using hke, fun j hj => ?_⟩
        obtain ⟨ins, hins⟩ := hprev j hj
        exact ⟨ins, by simpa using hins⟩

/-- Claim C3 as amended: a blank first-offending line makes the whole parse
fail with the BARE `EmptyLine` value — the error carries no line index and no
offending text (the variant is nullary), unlike `IncorrectArgument` and
`InstructionNotFoundOrWrongArgs`, which do carry message context. -/
theorem blank_line_fails_with_bare_emptyline (input : List String) (k : Nat)
    (hk : k < input.length)
    (hblank : tokenize (input.getD k "") = [])
    (hprev : ∀ j, j < k → ∃ ins, parseLine j (input.getD j "") = .ok ins) :
    parse_instructions input = .error .emptyLine := by
  have hne : ¬(input = []) := by
    intro h
    rw [h] at hk
    simp at hk
  rw [parse_instructions, if_neg hne]
  apply parseLines_first_error input 0 k .emptyLine hk
  · rw [parseLine, hblank]
  · intro j hj
    simpa using hprev j hj

/-- Claim C3, witness: the single blank line at index 0. -/
theorem blank_line_fails_with_bare_emptyline_witness :
    parse_instructions [""] = .error .emptyLine :=
  blank_line_fails_with_bare_emptyline [""] 0 (by decide) rfl
    (fun j hj => absurd hj (Nat.not_lt_zero j))

/-- Helper: every non-fatal instruction effect preserves `max_len` and moves
`pc` either to at most `pc + 1` (sequential paths, including the unbound
`Print` that leaves `pc` alone) or to a jump target bound-checked against
`max_len`. -/
theorem execInstr_inv (s : VmState) (ins : Instruction) (t : VmState)
    (h : execInstr s ins = some t) :
    t.maxLen = s.maxLen ∧ (t.pc ≤ s.pc + 1 ∨ t.pc ≤ s.maxLen) := by
  cases ins with
  | mov x y =>
      cases y with
      | const c =>
          simp only [execInstr, Option.some.injEq] at h
          subst h
          exact ⟨rfl, Or.inl (Nat.le_refl _)⟩
      | reg r =>
          simp only [execInstr, mov] at h
          split at h
          · simp only [Option.some.injEq] at h
            subst h
            exact ⟨rfl, Or.inl (Nat.le_refl _)⟩
          · exact Option.noConfusion h
  | add x y =>
      simp only [execInstr, vmAdd] at h
      split at h
      · simp only [Option.some.injEq] at h
        subst h
        exact ⟨rfl, Or.inl (Nat.le_refl _)⟩
      · exact Option.noConfusion h
  | print x =>
      simp only [execInstr, vmPrint] at h
      split at h
      · split at h
        · exact Option.noConfusion h
        · split at h
          · simp only [Option.some.injEq] at h
            subst h
            exact ⟨rfl, Or.inl (Nat.le_refl _)⟩
          · exact Option.noConfusion h
      · simp only [Option.some.injEq] at h
        subst h
        exact ⟨rfl, Or.inl (Nat.le_succ _)⟩
  | jnz x y =>
      simp only [execInstr, jumpz] at h
      split at h
      · exact Option.noConfusion h
      · split at h
        · simp only [Option.some.injEq] at h
          subst h
          exact ⟨rfl, Or.inl (Nat.le_refl _)⟩
        · split at h
          · exact Option.noConfusion h
          · split at h
            · exact Option.noConfusion h
            · split at h
              · exact Option.noConfusion h
              · simp only [Option.some.injEq] at h
                subst h
                refine ⟨rfl, Or.inr ?_⟩
                dsimp only
                omega

/-- Helper: a single fetch-dispatch step preserves `pc ≤ instruction count`
(fetching succeeds only when `pc` is strictly below the count). -/
theorem stepVm_inv (insts : List Instruction) (s t : VmState)
    (hm : s.maxLen = insts.length) (_hpc : s.pc ≤ insts.length)
    (h : stepVm insts s = some t) :
    t.maxLen = insts.length ∧ t.pc ≤ insts.length := by
  rw [stepVm] at h
  split at h
  · exact Option.noConfusion h
  · rename_i ins hins
    have hlt : s.pc < insts.length := by
      by_contra hge
      rw [List.getElem?_eq_none (Nat.le_of_not_lt hge)] at hins
      exact Option.noConfusion hins
    obtain ⟨h1, h2⟩ := execInstr_inv s ins t h
    refine ⟨h1.trans hm, ?_⟩
    rcases h2 with h2 | h2 <;> omega

/-- Helper: the invariant `max_len = instruction count ∧ pc ≤ count` is
preserved along any number of steps. -/
theorem iterateStep_inv (insts : List Instruction) :
    ∀ (n : Nat) (s t : VmState), s.maxLen = insts.length → s.pc ≤ insts.length →
      iterateStep insts n s = some t →
      t.maxLen = insts.length ∧ t.pc ≤ insts.length := by
  intro n
  induction n with
  | zero =>
      intro s t hm hpc h
      rw [iterateStep] at h
      cases h
      exact ⟨hm, hpc⟩
  | succ n ih =>
      intro s t hm hpc h
      rw [iterateStep] at h
      split at h
      · rename_i u hu
        obtain ⟨h1, h2⟩ := stepVm_inv insts s u hm hpc hu
        exact ih u t h1 h2 h
      · exact Option.noConfusion h

/-- Claim C10: starting a run at `start_pc ≤ instruction count`, the program
counter never exceeds the instruction count in any reachable state: sequential
steps go from `pc < count` to at most `count`, and taken jumps are
bound-checked against the count before `pc` is updated. -/
theorem pc_never_exceeds_len (insts : List Instruction) (startPc : Nat)
    (h : startPc ≤ insts.length) (n : Nat) (t : VmState)
    (hr : iterateStep insts n (initState insts startPc) = some t) :
    t.pc ≤ insts.length :=
  (iterateStep_inv insts n (initState insts startPc) t rfl h hr).2

/-- Claim C10, witness: one step of the one-instruction program
`[mov a 1]` started at `pc = 0`. -/
theorem pc_never_exceeds_len_witness :
    (mov_const (initState [Instruction.mov { name := "a" } (.const 1)] 0)
      { name := "a" } 1).pc ≤ [Instruction.mov { name := "a" } (.const 1)].length :=
  pc_never_exceeds_len [Instruction.mov { name := "a" } (.const 1)] 0
    (by decide) 1
    (mov_const (initState [Instruction.mov { name := "a" } (.const 1)] 0) { name := "a" } 1)
    rfl

end SimpleVm
